import Mathlib

/-!
# Verification of `setup.py` (STM32 project scaffolding orchestrator)

This file shallowly embeds the behaviour of the repository's single source
file `setup.py` and proves properties about it.  File contents are modelled
as `List Char` (Python strings), the list of lines produced by Python's
`readlines` is modelled explicitly, and side effects of the orchestration
actions are modelled as explicit traces of an `Effect` datatype.
-/

/-- Python `str.lower` on a single character, restricted to the ASCII
uppercase range (the only range the program's inputs exercise). -/
def lowerChar (c : Char) : Char :=
  if 65 ≤ c.toNat ∧ c.toNat ≤ 90 then Char.ofNat (c.toNat + 32) else c

/-- Python `str.lower` over a whole string (as a list of characters). -/
def pyLower (s : List Char) : List Char := s.map lowerChar

/-- Python `str.startswith pat`: `startsWith pat s` is true when `pat` is a
prefix of `s`. -/
def startsWith : List Char → List Char → Bool
  | [], _ => true
  | _ :: _, [] => false
  | p :: ps, c :: cs => p = c && startsWith ps cs

/-- Python `file.readlines()`: split a file's content into lines, keeping
the terminating newline character on every line that has one. -/
def readlines : List Char → List (List Char)
  | [] => []
  | c :: cs =>
    if c = '\n' then ['\n'] :: readlines cs
    else
      match readlines cs with
      | [] => [[c]]
      | l :: ls => (c :: l) :: ls

/-- The key scanned for by `update_cross_compile`. -/
def crossKey : List Char := "CROSS_COMPILE".data

/-- The replacement line `f"CROSS_COMPILE = \x7bnew_path\x7d\n"` written by
`update_cross_compile`. -/
def crossLine (p : List Char) : List Char := "CROSS_COMPILE = ".data ++ p ++ ['\n']

/-- The loop of `update_cross_compile`: replace the first line starting with
`CROSS_COMPILE` by `nl` and report whether a replacement happened
(the `cross_compile_found` flag). -/
def replaceFirst (nl : List Char) : List (List Char) → List (List Char) × Bool
  | [] => ([], false)
  | l :: ls =>
    if startsWith crossKey l then (nl :: ls, true)
    else
      let r := replaceFirst nl ls
      (l :: r.1, r.2)

/-- The pure content transformation performed by `update_cross_compile`
on a makefile it could read and write: rewrite the first line starting with
`CROSS_COMPILE`, or, when none exists, append the single string
`"\nCROSS_COMPILE = " ++ p ++ "\n"` to the line list before writing. -/
def update_cross_compile (content p : List Char) : List Char :=
  let lines := readlines content
  let r := replaceFirst (crossLine p) lines
  if r.2 then r.1.flatten else (r.1 ++ ['\n' :: crossLine p]).flatten

-- ## Basic facts about `readlines`

theorem join_readlines (l : List Char) : (readlines l).flatten = l := by
  induction l with
  | nil => rfl
  | cons c cs ih =>
    by_cases h : c = '\n'
    · subst h
      simp [readlines, ih]
    · simp only [readlines, if_neg h]
      cases hr : readlines cs with
      | nil =>
        rw [hr] at ih
        simp only [List.flatten_nil] at ih
        simp [← ih]
      | cons l0 ls =>
        rw [hr] at ih
        simp only [List.flatten_cons] at ih ⊢
        simp [ih]

theorem readlines_line_append (b rest : List Char) (hb : '\n' ∉ b) :
    readlines (b ++ '\n' :: rest) = (b ++ ['\n']) :: readlines rest := by
  induction b with
  | nil => simp [readlines]
  | cons c b ih =>
    have hc : c ≠ '\n' := fun h => hb (by simp [h])
    have hb' : '\n' ∉ b := fun h => hb (List.mem_cons_of_mem _ h)
    simp only [List.cons_append, readlines, if_neg hc, List.append_eq, ih hb']

theorem readlines_no_nl (b : List Char) (hb : '\n' ∉ b) (hne : b ≠ []) :
    readlines b = [b] := by
  induction b with
  | nil => cases hne rfl
  | cons c b ih =>
    have hc : c ≠ '\n' := fun h => hb (by simp [h])
    have hb' : '\n' ∉ b := fun h => hb (List.mem_cons_of_mem _ h)
    by_cases h : b = []
    · subst h
      simp [readlines, if_neg hc]
    · simp only [readlines, if_neg hc, ih hb' h]

-- ## Shape of `readlines` output

/-- A line terminated by a newline and containing no other newline. -/
def FullLine (l : List Char) : Prop := ∃ b, '\n' ∉ b ∧ l = b ++ ['\n']

/-- A final, unterminated line: nonempty and newline-free. -/
def PartLine (l : List Char) : Prop := l ≠ [] ∧ '\n' ∉ l

/-- The shape invariant of `readlines` output: every line but the last is
newline-terminated; the last is either terminated or a nonempty
newline-free remainder. -/
def LinesWF : List (List Char) → Prop
  | [] => True
  | [l] => FullLine l ∨ PartLine l
  | l :: ls => FullLine l ∧ LinesWF ls

theorem fullLine_cons (c : Char) (l : List Char) (hc : c ≠ '\n') (h : FullLine l) :
    FullLine (c :: l) := by
  obtain ⟨b, hb, rfl⟩ := h
  refine ⟨c :: b, ?_, rfl⟩
  intro hm
  rcases List.mem_cons.mp hm with he | hm
  · exact hc he.symm
  · exact hb hm

theorem partLine_cons (c : Char) (l : List Char) (hc : c ≠ '\n') (h : PartLine l) :
    PartLine (c :: l) := by
  refine ⟨List.cons_ne_nil c l, ?_⟩
  intro hm
  rcases List.mem_cons.mp hm with he | hm
  · exact hc he.symm
  · exact h.2 hm

theorem linesWF_cons (l : List Char) (ls : List (List Char)) (hne : ls ≠ []) :
    LinesWF (l :: ls) ↔ FullLine l ∧ LinesWF ls := by
  cases ls with
  | nil => cases hne rfl
  | cons a as => exact Iff.rfl

theorem linesWF_readlines (l : List Char) : LinesWF (readlines l) := by
  induction l with
  | nil => trivial
  | cons c cs ih =>
    by_cases h : c = '\n'
    · subst h
      simp only [readlines, if_pos rfl]
      cases hr : readlines cs with
      | nil => exact Or.inl ⟨[], by simp, rfl⟩
      | cons l0 ls =>
        rw [hr] at ih
        exact ⟨⟨[], by simp, rfl⟩, ih⟩
    · simp only [readlines, if_neg h]
      cases hr : readlines cs with
      | nil =>
        exact Or.inr ⟨List.cons_ne_nil c [], fun hm => h (List.mem_singleton.mp hm).symm⟩
      | cons l0 ls =>
        rw [hr] at ih
        cases ls with
        | nil =>
          rcases ih with hf | hp
          · exact Or.inl (fullLine_cons c l0 h hf)
          · exact Or.inr (partLine_cons c l0 h hp)
        | cons l1 ls1 =>
          exact ⟨fullLine_cons c l0 h ih.1, ih.2⟩

theorem readlines_flatten (L : List (List Char)) (h : LinesWF L) :
    readlines L.flatten = L := by
  induction L with
  | nil => rfl
  | cons l ls ih =>
    cases ls with
    | nil =>
      have h' : FullLine l ∨ PartLine l := h
      simp only [List.flatten_cons, List.flatten_nil, List.append_nil]
      rcases h' with ⟨b, hb, rfl⟩ | ⟨hne, hnl⟩
      · rw [show b ++ ['\n'] = b ++ '\n' :: ([] : List Char) from rfl,
          readlines_line_append b [] hb]
        rfl
      · exact readlines_no_nl l hnl hne
    | cons l2 ls2 =>
      have h' : FullLine l ∧ LinesWF (l2 :: ls2) := h
      obtain ⟨⟨b, hb, rfl⟩, hwf⟩ := h'
      have hflat : ((b ++ ['\n']) :: l2 :: ls2).flatten = b ++ '\n' :: (l2 :: ls2).flatten := by
        simp
      rw [hflat, readlines_line_append b _ hb, ih hwf]

theorem linesWF_split (pre : List (List Char)) (m : List Char) (suf : List (List Char))
    (h : LinesWF (pre ++ m :: suf)) :
    (∀ l ∈ pre, FullLine l) ∧ LinesWF (m :: suf) := by
  induction pre with
  | nil => exact ⟨by simp, h⟩
  | cons a pre ih =>
    rw [List.cons_append, linesWF_cons _ _ (by simp)] at h
    obtain ⟨ha, hrest⟩ := h
    obtain ⟨hpre, hms⟩ := ih hrest
    refine ⟨?_, hms⟩
    intro l hl
    rcases List.mem_cons.mp hl with rfl | hl
    · exact ha
    · exact hpre l hl

theorem linesWF_append (pre rest : List (List Char)) (hpre : ∀ l ∈ pre, FullLine l)
    (hrest : LinesWF rest) (hne : rest ≠ []) : LinesWF (pre ++ rest) := by
  induction pre with
  | nil => exact hrest
  | cons a pre ih =>
    rw [List.cons_append,
      linesWF_cons _ _ (fun hh => hne (List.append_eq_nil.mp hh).2)]
    exact ⟨hpre a (List.mem_cons_self a pre),
      ih (fun l hl => hpre l (List.mem_cons_of_mem _ hl))⟩

theorem linesWF_replace_head (m nl : List Char) (suf : List (List Char))
    (h : LinesWF (m :: suf)) (hnl : FullLine nl) : LinesWF (nl :: suf) := by
  cases suf with
  | nil => exact Or.inl hnl
  | cons a as => exact ⟨hnl, h.2⟩

-- ## Behaviour of `replaceFirst` / `update_cross_compile`

theorem replaceFirst_of_not_found (nl : List Char) (L : List (List Char))
    (h : ∀ l ∈ L, startsWith crossKey l = false) :
    replaceFirst nl L = (L, false) := by
  induction L with
  | nil => rfl
  | cons a as ih =>
    have ha := h a (List.mem_cons_self a as)
    simp only [replaceFirst, ha, Bool.false_eq_true, if_false,
      ih (fun l hl => h l (List.mem_cons_of_mem _ hl))]

theorem replaceFirst_found (nl : List Char) (pre : List (List Char)) (m : List Char)
    (suf : List (List Char)) (hpre : ∀ l ∈ pre, startsWith crossKey l = false)
    (hm : startsWith crossKey m = true) :
    replaceFirst nl (pre ++ m :: suf) = (pre ++ nl :: suf, true) := by
  induction pre with
  | nil => simp [replaceFirst, hm]
  | cons a pre ih =>
    have ha := hpre a (List.mem_cons_self a pre)
    simp only [List.cons_append, replaceFirst, ha, Bool.false_eq_true, if_false,
      List.append_eq, ih (fun l hl => hpre l (List.mem_cons_of_mem _ hl))]

theorem update_cross_compile_eq (content p : List Char) :
    update_cross_compile content p =
      if (replaceFirst (crossLine p) (readlines content)).2 then
        (replaceFirst (crossLine p) (readlines content)).1.flatten
      else
        ((replaceFirst (crossLine p) (readlines content)).1 ++
          ['\n' :: crossLine p]).flatten := rfl

theorem update_found (content p : List Char) (pre : List (List Char)) (m : List Char)
    (suf : List (List Char)) (hsplit : readlines content = pre ++ m :: suf)
    (hpre : ∀ l ∈ pre, startsWith crossKey l = false)
    (hm : startsWith crossKey m = true) :
    update_cross_compile content p = (pre ++ crossLine p :: suf).flatten := by
  rw [update_cross_compile_eq, hsplit, replaceFirst_found _ _ _ _ hpre hm]
  rfl

theorem update_not_found (content p : List Char)
    (h : ∀ l ∈ readlines content, startsWith crossKey l = false) :
    update_cross_compile content p = content ++ '\n' :: crossLine p := by
  rw [update_cross_compile_eq, replaceFirst_of_not_found _ _ h]
  simp [List.flatten_append, join_readlines]

theorem startsWith_append_nl (pat : List Char) (hpat : '\n' ∉ pat) (b : List Char) :
    startsWith pat (b ++ ['\n']) = startsWith pat b := by
  induction pat generalizing b with
  | nil => rfl
  | cons q qs ih =>
    have hq : q ≠ '\n' := fun h => hpat (by simp [h])
    have hqs : '\n' ∉ qs := fun h => hpat (List.mem_cons_of_mem _ h)
    cases b with
    | nil => simp [startsWith, hq]
    | cons c cs => simp only [List.cons_append, startsWith, List.append_eq, ih hqs]

theorem startsWith_self_append (pat rest : List Char) :
    startsWith pat (pat ++ rest) = true := by
  induction pat with
  | nil => rfl
  | cons q qs ih => simp [startsWith, ih]

theorem crossLine_full (p : List Char) (hp : '\n' ∉ p) : FullLine (crossLine p) := by
  refine ⟨"CROSS_COMPILE = ".data ++ p, ?_, by simp [crossLine]⟩
  intro hm
  rcases List.mem_append.mp hm with hm | hm
  · exact absurd hm (by decide)
  · exact hp hm

theorem startsWith_crossLine (p : List Char) : startsWith crossKey (crossLine p) = true := by
  have hdata : "CROSS_COMPILE = ".data = crossKey ++ " = ".data := by decide
  unfold crossLine
  rw [hdata, List.append_assoc, List.append_assoc, startsWith_self_append]

theorem exists_first_match (L : List (List Char)) :
    (∀ l ∈ L, startsWith crossKey l = false) ∨
    ∃ pre m suf, L = pre ++ m :: suf ∧ (∀ l ∈ pre, startsWith crossKey l = false) ∧
      startsWith crossKey m = true := by
  induction L with
  | nil => exact Or.inl (by simp)
  | cons a as ih =>
    by_cases ha : startsWith crossKey a = true
    · exact Or.inr ⟨[], a, as, rfl, by simp, ha⟩
    · have ha' : startsWith crossKey a = false := by
        cases h : startsWith crossKey a
        · rfl
        · cases ha h
      rcases ih with hnone | ⟨pre, m, suf, hL, hpre, hm⟩
      · refine Or.inl ?_
        intro l hl
        rcases List.mem_cons.mp hl with rfl | hl
        · exact ha'
        · exact hnone l hl
      · refine Or.inr ⟨a :: pre, m, suf, by rw [hL, List.cons_append], ?_, hm⟩
        intro l hl
        rcases List.mem_cons.mp hl with rfl | hl
        · exact ha'
        · exact hpre l hl

theorem linesWF_cases (L : List (List Char)) (h : LinesWF L) :
    (∀ l ∈ L, FullLine l) ∨
    ∃ Li last, L = Li ++ [last] ∧ (∀ l ∈ Li, FullLine l) ∧ PartLine last := by
  induction L with
  | nil => exact Or.inl (by simp)
  | cons a as ih =>
    cases as with
    | nil =>
      have h' : FullLine a ∨ PartLine a := h
      rcases h' with hf | hpt
      · refine Or.inl ?_
        intro l hl
        rw [List.mem_singleton.mp hl]
        exact hf
      · exact Or.inr ⟨[], a, rfl, by simp, hpt⟩
    | cons b bs =>
      have h' : FullLine a ∧ LinesWF (b :: bs) := h
      rcases ih h'.2 with hall | ⟨Li, last, heq, hLi, hlast⟩
      · refine Or.inl ?_
        intro l hl
        rcases List.mem_cons.mp hl with rfl | hl
        · exact h'.1
        · exact hall l hl
      · refine Or.inr ⟨a :: Li, last, by rw [heq, List.cons_append], ?_, hlast⟩
        intro l hl
        rcases List.mem_cons.mp hl with rfl | hl
        · exact h'.1
        · exact hLi l hl

theorem readlines_full_flatten_append (L : List (List Char)) (rest : List Char)
    (h : ∀ l ∈ L, FullLine l) :
    readlines (L.flatten ++ rest) = L ++ readlines rest := by
  induction L with
  | nil => simp
  | cons a as ih =>
    obtain ⟨b, hb, hab⟩ := h a (List.mem_cons_self a as)
    have hflat : ((a :: as).flatten ++ rest) = b ++ '\n' :: (as.flatten ++ rest) := by
      rw [hab]; simp
    rw [hflat, readlines_line_append b _ hb,
      ih (fun l hl => h l (List.mem_cons_of_mem _ hl)), ← hab]
    rfl

theorem update_idem (content p : List Char) (hp : '\n' ∉ p) :
    update_cross_compile (update_cross_compile content p) p =
      update_cross_compile content p := by
  have hwf := linesWF_readlines content
  have hfull : FullLine (crossLine p) := crossLine_full p hp
  obtain ⟨q, hq, hcl⟩ := hfull
  have hrecl : readlines (crossLine p) = [crossLine p] := by
    rw [hcl, show q ++ ['\n'] = q ++ '\n' :: ([] : List Char) from rfl,
      readlines_line_append q [] hq]
    rfl
  rcases exists_first_match (readlines content) with hnone | ⟨pre, m, suf, hsplit, hpre, hm⟩
  · -- no line of `content` starts with the key: the first run appends
    rw [update_not_found content p hnone]
    rcases linesWF_cases _ hwf with hall | ⟨Li, last, heq, hLi, hlast⟩
    · -- every line of `content` is newline-terminated
      have hsplit2 : readlines (content ++ '\n' :: crossLine p) =
          (readlines content ++ [['\n']]) ++ crossLine p :: [] := by
        conv_lhs => rw [← join_readlines content]
        rw [readlines_full_flatten_append _ _ hall,
          show readlines ('\n' :: crossLine p) = ['\n'] :: readlines (crossLine p) from by
            simp [readlines],
          hrecl, List.append_assoc]
        rfl
      have hpre2 : ∀ l ∈ readlines content ++ [['\n']], startsWith crossKey l = false := by
        intro l hl
        rcases List.mem_append.mp hl with hl | hl
        · exact hnone l hl
        · rw [List.mem_singleton.mp hl]
          decide
      rw [update_found _ p _ _ _ hsplit2 hpre2 (startsWith_crossLine p)]
      simp [List.flatten_append, join_readlines]
    · -- the last line of `content` is unterminated
      have hcontent : content = Li.flatten ++ last := by
        conv_lhs => rw [← join_readlines content]
        rw [heq]
        simp
      have hsplit2 : readlines (content ++ '\n' :: crossLine p) =
          (Li ++ [last ++ ['\n']]) ++ crossLine p :: [] := by
        rw [hcontent, List.append_assoc, readlines_full_flatten_append Li _ hLi,
          readlines_line_append last _ hlast.2, hrecl]
        simp
      have hpre2 : ∀ l ∈ Li ++ [last ++ ['\n']], startsWith crossKey l = false := by
        intro l hl
        rcases List.mem_append.mp hl with hl | hl
        · refine hnone l ?_
          rw [heq]
          exact List.mem_append_left _ hl
        · rw [List.mem_singleton.mp hl, startsWith_append_nl crossKey (by decide) last]
          refine hnone last ?_
          rw [heq]
          exact List.mem_append_right _ (List.mem_singleton_self last)
      rw [update_found _ p _ _ _ hsplit2 hpre2 (startsWith_crossLine p)]
      rw [hcontent]
      simp [List.flatten_append]
  · -- some line matches: the first run replaces it with `crossLine p`
    rw [update_found content p pre m suf hsplit hpre hm]
    have hwf2 : LinesWF (pre ++ crossLine p :: suf) := by
      rw [hsplit] at hwf
      obtain ⟨hpreF, hms⟩ := linesWF_split pre m suf hwf
      exact linesWF_append pre _ hpreF
        (linesWF_replace_head m _ suf hms (crossLine_full p hp)) (List.cons_ne_nil _ _)
    have hre : readlines (pre ++ crossLine p :: suf).flatten = pre ++ crossLine p :: suf :=
      readlines_flatten _ hwf2
    rw [update_found _ p pre (crossLine p) suf hre hpre (startsWith_crossLine p)]

-- ## Lowercasing facts (the confirmation prompt)

theorem lowerChar_eq_y (c : Char) (h : lowerChar c = 'y') : c = 'y' ∨ c = 'Y' := by
  unfold lowerChar at h
  split at h
  · rename_i hc
    obtain ⟨h1, h2⟩ := hc
    right
    obtain ⟨n, hn⟩ : ∃ n, c.toNat = n := ⟨c.toNat, rfl⟩
    rw [hn] at h h1 h2
    interval_cases n <;> first
    | (exact absurd h (by decide))
    | (have hcn := congrArg Char.ofNat hn
       rw [Char.ofNat_toNat] at hcn
       rw [hcn])
  · exact Or.inl h

theorem pyLower_eq_y (s : List Char) (h : pyLower s = ['y']) :
    s = ['y'] ∨ s = ['Y'] := by
  cases s with
  | nil => cases h
  | cons c cs =>
    cases cs with
    | nil =>
      have hc : lowerChar c = 'y' := by
        simpa [pyLower] using h
      rcases lowerChar_eq_y c hc with rfl | rfl
      · exact Or.inl rfl
      · exact Or.inr rfl
    | cons d ds =>
      simp [pyLower] at h

-- ## Observable effects of the orchestration actions

/-- JSON-like structured documents (used for the VSCode task descriptor that
`setup` serializes with `json.dumps`). -/
inductive Json where
  | str : String → Json
  | arr : List Json → Json
  | obj : List (String × Json) → Json

/-- Look up a member of a JSON object member list by key. -/
def lookupField : List (String × Json) → String → Option Json
  | [], _ => none
  | (k, v) :: fs, key => if k = key then some v else lookupField fs key

/-- Look up a member of a JSON object. -/
def Json.getField : Json → String → Option Json
  | .obj fs, key => lookupField fs key
  | _, _ => none

/-- Observable side effects of the orchestrator: console output, external
process invocations (with an optional working directory), and filesystem
operations. -/
inductive Effect where
  | print (msg : String)
  | printErr (msg : String)
  | run (cmd : String) (dir : Option String)
  | mkdir (path : String)
  | writeFile (path : String) (content : String)
  | appendFile (path : String) (content : String)
  | removeEntry (path : String)
  | copyFile (src dst : String)
  | copyTree (src dst : String)
  | writeJsonFile (path : String) (doc : Json)

/-- `pathlib`-style path join; the current directory is modelled as `""`. -/
def joinPath (a b : String) : String := if a = "" then b else a ++ "/" ++ b

/-- Effects of `download_compiler`: fetch and unpack the toolchain archive. -/
def download_compiler (path : String) : List Effect :=
  [Effect.run ("curl -o compiler.tar.bz2 https://armkeil.blob.core.windows.net/developer/Files/downloads/gnu-rm/10.3-2021.07/gcc-arm-none-eabi-10.3-2021.07-mac-10.14.6.tar.bz2") (some path),
   Effect.run "tar -xvf compiler.tar.bz2" (some path)]

/-- Effects of `install_compiler`: `alreadyInstalled` states whether the
versioned toolchain directory `gcc-arm-none-eabi-10.3-2021.07` exists under
`path` when the function runs. -/
def install_compiler (path : String) (alreadyInstalled : Bool) : List Effect :=
  if alreadyInstalled then [Effect.print "Compiler already exists"]
  else download_compiler path

/-- Effects of `install_stlink`. -/
def install_stlink : List Effect := [Effect.run "brew install stlink" none]

/-- Effects of `get_micropython`: clone, pin the release branch, initialize
submodules, create the module directory, and register the app module in the
board manifest. -/
def get_micropython (path : String) : List Effect :=
  [Effect.run "git clone --recurse-submodules https://github.com/micropython/micropython.git" (some path),
   Effect.run "git checkout v1.22-release" (some (joinPath path "micropython")),
   Effect.run "git submodule update --init" (some (joinPath path "micropython")),
   Effect.run "mkdir modules" (some (joinPath path "micropython/ports/stm32")),
   Effect.appendFile (joinPath path "micropython/ports/stm32/boards/NUCLEO_H743ZI/manifest.py")
     "freeze(\"$(PORT_DIR)/modules/app\")"]

/-- Effects of `compile_firmware`; `appModuleExists` states whether
`stm32/micropython/ports/stm32/modules/app` exists when the function runs. -/
def compile_firmware (appModuleExists : Bool) : List Effect :=
  [Effect.run "make -C mpy-cross" (some "stm32/micropython"),
   Effect.run "make submodules" (some "stm32/micropython/ports/stm32")]
  ++ (if appModuleExists then [Effect.removeEntry "stm32/micropython/ports/stm32/modules/app"] else [])
  ++ [Effect.copyTree "app" "stm32/micropython/ports/stm32/modules/app",
      Effect.run "make BOARD=NUCLEO_H743ZI" (some "stm32/micropython/ports/stm32")]

/-- Effects of `flash_firmware`. -/
def flash_firmware : List Effect :=
  [Effect.run "st-flash --connect-under-reset --format ihex write build-NUCLEO_H743ZI/firmware.hex"
    (some "stm32/micropython/ports/stm32")]

/-- Effects of `reset_device`. -/
def reset_device : List Effect := [Effect.run "st-flash --connect-under-reset reset" none]

/-- Effects of `clean_build`. -/
def clean_build : List Effect := [Effect.run "make clean" (some "stm32/micropython/ports/stm32")]

-- ## `update_cross_compile` with its exception handling

/-- `update_cross_compile` as run against a file: `readable` / `writable`
state whether opening the makefile for reading / writing succeeds.  Any
failure is caught, a message is printed, and `False` is reported; a read
failure leaves the content untouched (no write is ever attempted).
Returns (reported result, file content afterwards, console effects). -/
def update_cross_compile_run (path : String) (content : List Char)
    (readable writable : Bool) (p : List Char) : Bool × List Char × List Effect :=
  if readable then
    if writable then
      (true, update_cross_compile content p,
        [Effect.writeFile path (String.mk (update_cross_compile content p))])
    else (false, content, [Effect.print "Error: could not open makefile for writing"])
  else (false, content, [Effect.print "Error: could not open makefile for reading"])

-- ## The `setup` action

/-- The default application stub written to `app/app.py`. -/
def appStub : String :=
  "\nimport pyb\n\ndef run():\n    print(\"run function is runing\")\n    pyb.LED(1).on()\n"

/-- The VSCode task descriptor `setup` serializes into `.vscode/tasks.json`. -/
def tasksContent : Json :=
  Json.obj
    [("version", Json.str "2.0.0"),
     ("tasks", Json.arr
       [Json.obj [("label", Json.str "Setup"), ("type", Json.str "shell"),
                  ("command", Json.str "python3 stm32/setup.py setup")],
        Json.obj [("label", Json.str "Compile"), ("type", Json.str "shell"),
                  ("command", Json.str "python3 stm32/setup.py compile")],
        Json.obj [("label", Json.str "Flash"), ("type", Json.str "shell"),
                  ("command", Json.str "python3 stm32/setup.py flash"),
                  ("dependsOn", Json.str "Compile")],
        Json.obj [("label", Json.str "Reset"), ("type", Json.str "shell"),
                  ("command", Json.str "python3 stm32/setup.py reset")]])]

/-- The confirmation check of `setup --delete_current`:
`input(...).lower() == "y"`. -/
def deletionConfirmed (answer : List Char) : Bool := pyLower answer == ['y']

/-- Path of the makefile patched by `setup` (built from the local variable
`project_name`, not from `project_path`). -/
def makefilePath (name : String) : String :=
  joinPath name "stm32/micropython/ports/stm32/Makefile"

/-- Toolchain binary prefix written into the makefile by `setup` (also built
from `project_name`). -/
def crossPathChars (name : String) : List Char :=
  (joinPath name "stm32/arm_gcc_compiler/gcc-arm-none-eabi-10.3-2021.07/bin/arm-none-eabi-").data

/-- The Python error raised when a local variable is read before any
assignment to it has executed. -/
def unboundLocalMsg : String :=
  "UnboundLocalError: local variable project_name referenced before assignment"

/-- Steps 1-2 of the provisioning sequence: directory tree, application
stub, compiler install, MicroPython clone.  `pdir` is the project path
(`""` models the current directory). -/
def provisionPre (pdir : String) (alreadyInstalled : Bool) : List Effect :=
  [Effect.mkdir (joinPath pdir "stm32"),
   Effect.mkdir (joinPath pdir "stm32/arm_gcc_compiler"),
   Effect.mkdir (joinPath pdir "app"),
   Effect.writeFile (joinPath pdir "app/app.py") appStub,
   Effect.mkdir (joinPath pdir ".vscode")]
  ++ install_compiler (joinPath pdir "stm32/arm_gcc_compiler") alreadyInstalled
  ++ get_micropython (joinPath pdir "stm32")

/-- Steps 3-5 of the provisioning sequence: copy the orchestrator script,
write the task descriptor, install the flashing utility.  Independent of
the outcome of the makefile edit. -/
def provisionPost (pdir : String) : List Effect :=
  [Effect.copyFile "setup.py" (joinPath pdir "stm32/setup.py"),
   Effect.print ("Setup script copied to " ++ joinPath pdir "stm32/setup.py"),
   Effect.writeJsonFile (joinPath pdir ".vscode/tasks.json") tasksContent,
   Effect.print ("VSCode tasks.json created at " ++ joinPath pdir ".vscode/tasks.json")]
  ++ install_stlink
  ++ [Effect.print ("STM32 project setup completed at " ++ pdir)]

/-- The provisioning sequence of `setup_stm32_project` after the initial
branch.  `pname` models the Python local `project_name`, which is assigned
only in the fresh-project branch: when it is unbound (`none`), evaluating
`cwd / project_name / ...` for the makefile patch raises
`UnboundLocalError`, aborting the function at that point. -/
def provision (pname : Option String) (pdir : String) (alreadyInstalled : Bool)
    (mkContent : List Char) (mkReadable mkWritable : Bool) :
    List Effect × Option String :=
  match pname with
  | none => (provisionPre pdir alreadyInstalled, some unboundLocalMsg)
  | some name =>
      (provisionPre pdir alreadyInstalled
        ++ (update_cross_compile_run (makefilePath name) mkContent mkReadable mkWritable
              (crossPathChars name)).2.2
        ++ provisionPost pdir, none)

/-- `setup_stm32_project delete_current`, as a trace of effects plus an
optional uncaught Python error.  `answer` is the operator's reply to the
confirmation prompt; `newName` the project name typed in the fresh branch;
`topEntries` the entries of the current directory; `alreadyInstalled`,
`mkContent`, `mkReadable`, `mkWritable` describe the filesystem state seen
by the compiler install and the makefile edit. -/
def setup_stm32_project (deleteCurrent : Bool) (answer : List Char) (newName : String)
    (topEntries : List String) (alreadyInstalled : Bool)
    (mkContent : List Char) (mkReadable mkWritable : Bool) :
    List Effect × Option String :=
  if deleteCurrent then
    if deletionConfirmed answer then
      let pr := provision none "" alreadyInstalled mkContent mkReadable mkWritable
      (topEntries.map Effect.removeEntry
        ++ [Effect.print "Deleted existing project content."] ++ pr.1, pr.2)
    else ([Effect.print "Setup aborted."], none)
  else
    let pr := provision (some newName) newName alreadyInstalled mkContent mkReadable mkWritable
    (Effect.mkdir newName :: pr.1, pr.2)

-- ## Command-line surface (`main`)

/-- The fixed vocabulary of subcommands registered on the argument parser. -/
def commandNames : List String :=
  ["stlink", "compiler", "compile", "flash", "reset", "get_mpy", "clean", "setup"]

/-- Result of `argparse` argument parsing. -/
inductive ParseOutcome where
  | parsed (cmd : Option String) (deleteCurrent : Bool)
  | usageError

/-- `argparse.ArgumentParser.parse_args` for this CLI: no argument leaves
`args.command` as `None`; a registered subcommand parses; an unregistered
token makes `argparse` print a usage error and exit with status 2
(modelled as `usageError`). -/
def parse_args : List String → ParseOutcome
  | [] => ParseOutcome.parsed none false
  | [c] =>
      if commandNames.contains c then ParseOutcome.parsed (some c) false
      else ParseOutcome.usageError
  | ["setup", "--delete_current"] => ParseOutcome.parsed (some "setup") true
  | _ => ParseOutcome.usageError

/-- Help text printed by `parser.print_help()`. -/
def helpText : String :=
  "usage: setup.py [-h] (stlink | compiler | compile | flash | reset | get_mpy | clean | setup) - A simple CLI program."

/-- Usage error emitted by `argparse` for an invalid choice (stderr). -/
def usageText : String :=
  "usage: setup.py [-h] command - error: invalid choice"

/-- Filesystem and operator state consulted by the dispatched actions. -/
structure World where
  answer : List Char
  newName : String
  topEntries : List String
  alreadyInstalled : Bool
  appModuleExists : Bool
  mkContent : List Char
  mkReadable : Bool
  mkWritable : Bool

/-- The `command_mapping` dispatch of `main`. -/
def dispatch (w : World) (cmd : String) (deleteFlag : Bool) : List Effect × Option String :=
  if cmd = "compiler" then (install_compiler "stm32/arm_gcc_compiler" w.alreadyInstalled, none)
  else if cmd = "get_mpy" then (get_micropython "stm32", none)
  else if cmd = "stlink" then (install_stlink, none)
  else if cmd = "compile" then (compile_firmware w.appModuleExists, none)
  else if cmd = "flash" then (flash_firmware, none)
  else if cmd = "reset" then (reset_device, none)
  else if cmd = "clean" then (clean_build, none)
  else if cmd = "setup" then
    setup_stm32_project deleteFlag w.answer w.newName w.topEntries w.alreadyInstalled
      w.mkContent w.mkReadable w.mkWritable
  else ([], none)

/-- `main`: parse, dispatch, and return (process exit code, effect trace).
An uncaught Python exception terminates the process with exit code 1. -/
def mainRun (w : World) (argv : List String) : Nat × List Effect :=
  match parse_args argv with
  | ParseOutcome.usageError => (2, [Effect.printErr usageText])
  | ParseOutcome.parsed none _ => (0, [Effect.print helpText])
  | ParseOutcome.parsed (some c) d =>
      let r := dispatch w c d
      (if r.2.isSome then 1 else 0, r.1)

/-- An arbitrary concrete world used for closed instantiations. -/
def anyWorld : World :=
  ⟨"y".data, "proj", [], false, false, [], true, true⟩

/-- The list of task records inside the task descriptor. -/
def tasksList : List Json :=
  match tasksContent.getField "tasks" with
  | some (Json.arr l) => l
  | _ => []

-- ## Claim theorems

/-- C1: running `setup` with `delete_current` and confirming with "y"
removes every top-level entry and starts provisioning, but the run does
not complete without error: after the clone step the function raises
`UnboundLocalError`, because the local `project_name` used to build the
makefile path is assigned only in the fresh-project branch.  The makefile
patch, script copy, task descriptor and flashing-utility install never
execute. -/
theorem setup_delete_confirmed_raises_unbound_local :
    setup_stm32_project true "y".data "" ["old_dir", "old_file"] false [] true true =
      (Effect.removeEntry "old_dir" :: Effect.removeEntry "old_file" ::
        Effect.print "Deleted existing project content." :: provisionPre "" false,
       some unboundLocalMsg) := rfl

/-- C2 (counterexample): with an unrecognized command token the process
does not exit with code 0 — `argparse` rejects the invalid choice with a
usage error and exit status 2. -/
theorem unknown_command_nonzero_exit : (mainRun anyWorld ["foo"]).1 ≠ 0 := by decide

/-- C2 (amended): an absent command token prints the help text and exits 0
with no filesystem or process side effects; an unrecognized token makes the
argument parser print a usage error and exit with status 2, likewise without
side effects. -/
theorem help_on_absent_usage_error_on_unknown :
    (∀ w : World, mainRun w [] = (0, [Effect.print helpText])) ∧
    (∀ (w : World) (c : String), commandNames.contains c = false →
      mainRun w [c] = (2, [Effect.printErr usageText])) := by
  constructor
  · intro w
    rfl
  · intro w c h
    have hp : parse_args [c] = ParseOutcome.usageError := by
      simp only [parse_args, h, Bool.false_eq_true, if_false]
    unfold mainRun
    rw [hp]

/-- C2 (witness). -/
theorem help_on_absent_usage_error_on_unknown_witness :
    mainRun anyWorld ["foo"] = (2, [Effect.printErr usageText]) :=
  help_on_absent_usage_error_on_unknown.2 anyWorld "foo" (by decide)

/-- C3 (counterexample): on a file with no `CROSS_COMPILE` line the result
is not the original content followed by the single key line — the code
appends `"\nCROSS_COMPILE = ...\n"`, so a blank separator line appears
between the original content and the key line. -/
theorem append_no_match_not_single_line :
    update_cross_compile "A=1\n".data "p".data ≠ "A=1\n".data ++ crossLine "p".data ∧
    update_cross_compile "A=1\n".data "p".data = "A=1\n\nCROSS_COMPILE = p\n".data := by
  constructor
  · decide
  · decide

/-- C3 (amended): on a file with no line starting with `CROSS_COMPILE`,
`update_cross_compile` preserves the original content byte-for-byte and
appends a newline character followed by exactly one key line, and nothing
else. -/
theorem update_cross_compile_appends_with_separator (content p : List Char)
    (h : ∀ l ∈ readlines content, startsWith crossKey l = false) :
    update_cross_compile content p = content ++ '\n' :: crossLine p :=
  update_not_found content p h

/-- C3 (witness). -/
theorem update_cross_compile_appends_with_separator_witness :
    update_cross_compile "A=1\n".data "p".data = "A=1\n".data ++ '\n' :: crossLine "p".data :=
  update_cross_compile_appends_with_separator "A=1\n".data "p".data (by decide)

/-- C4: when some line of the file starts with `CROSS_COMPILE`,
`update_cross_compile` rewrites exactly the first such line, and every
other byte of the file — the lines before it, the lines after it
(including later `CROSS_COMPILE` lines), and their newline structure — is
preserved verbatim. -/
theorem update_cross_compile_rewrites_first_match_only (content p : List Char)
    (pre : List (List Char)) (m : List Char) (suf : List (List Char))
    (hsplit : readlines content = pre ++ m :: suf)
    (hpre : ∀ l ∈ pre, startsWith crossKey l = false)
    (hm : startsWith crossKey m = true) :
    content = pre.flatten ++ m ++ suf.flatten ∧
    update_cross_compile content p = pre.flatten ++ crossLine p ++ suf.flatten := by
  constructor
  · conv_lhs => rw [← join_readlines content]
    rw [hsplit]
    simp [List.flatten_append]
  · rw [update_found content p pre m suf hsplit hpre hm]
    simp [List.flatten_append]

/-- C4 (witness). -/
theorem update_cross_compile_rewrites_first_match_only_witness :
    "X=1\nCROSS_COMPILE = old\nY=2\n".data =
        (["X=1\n".data] : List (List Char)).flatten ++ "CROSS_COMPILE = old\n".data ++
          (["Y=2\n".data] : List (List Char)).flatten ∧
    update_cross_compile "X=1\nCROSS_COMPILE = old\nY=2\n".data "NEW".data =
        (["X=1\n".data] : List (List Char)).flatten ++ crossLine "NEW".data ++
          (["Y=2\n".data] : List (List Char)).flatten :=
  update_cross_compile_rewrites_first_match_only _ _ ["X=1\n".data]
    "CROSS_COMPILE = old\n".data ["Y=2\n".data] (by decide) (by decide) (by decide)

/-- C5: when the versioned toolchain directory already exists,
`install_compiler` runs no external command (no download, no extraction):
its whole effect trace is one log message, so re-running it is a no-op. -/
theorem install_compiler_noop_when_present (path : String) :
    install_compiler path true = [Effect.print "Compiler already exists"] := rfl

/-- C6: declining the `--delete_current` confirmation prompt (any answer
whose lowercasing is not "y") stops `setup` immediately: the whole effect
trace is the abort message — no entry is deleted, created or modified. -/
theorem setup_decline_leaves_directory_untouched (answer : List Char) (newName : String)
    (topEntries : List String) (alreadyInstalled : Bool) (mkContent : List Char)
    (mkReadable mkWritable : Bool) (h : pyLower answer ≠ ['y']) :
    setup_stm32_project true answer newName topEntries alreadyInstalled
        mkContent mkReadable mkWritable = ([Effect.print "Setup aborted."], none) := by
  have hc : deletionConfirmed answer = false := by
    unfold deletionConfirmed
    exact beq_eq_false_iff_ne.mpr h
  simp only [setup_stm32_project, hc, Bool.false_eq_true, if_false, if_true]

/-- C6 (witness). -/
theorem setup_decline_leaves_directory_untouched_witness :
    setup_stm32_project true "n".data "proj" ["f1"] false [] true true =
      ([Effect.print "Setup aborted."], none) :=
  setup_decline_leaves_directory_untouched "n".data "proj" ["f1"] false [] true true (by decide)

/-- C7: the task descriptor written by `setup` contains exactly four task
records labelled Setup, Compile, Flash, Reset; each command invokes the
orchestrator script with the corresponding token, and only the Flash record
carries a dependency, which references Compile. -/
theorem tasks_descriptor_structure :
    tasksList.length = 4 ∧
    tasksList.map (fun t => t.getField "label") =
      [some (Json.str "Setup"), some (Json.str "Compile"),
       some (Json.str "Flash"), some (Json.str "Reset")] ∧
    tasksList.map (fun t => t.getField "command") =
      [some (Json.str "python3 stm32/setup.py setup"),
       some (Json.str "python3 stm32/setup.py compile"),
       some (Json.str "python3 stm32/setup.py flash"),
       some (Json.str "python3 stm32/setup.py reset")] ∧
    tasksList.map (fun t => t.getField "dependsOn") =
      [none, none, some (Json.str "Compile"), none] :=
  ⟨rfl, rfl, rfl, rfl⟩

/-- C8: `update_cross_compile` never propagates an exception: a read
failure yields `False` with a printed message and the content untouched, a
write-open failure yields `False` with a printed message, success yields
`True` and the rewritten file; and `setup`'s fresh-project run has the same
steps after the edit whatever the edit reported, because the caller
ignores the boolean. -/
theorem update_run_reports_failure_and_setup_continues :
    (∀ (path : String) (content p : List Char) (w : Bool),
      update_cross_compile_run path content false w p =
        (false, content, [Effect.print "Error: could not open makefile for reading"])) ∧
    (∀ (path : String) (content p : List Char),
      update_cross_compile_run path content true false p =
        (false, content, [Effect.print "Error: could not open makefile for writing"])) ∧
    (∀ (path : String) (content p : List Char),
      update_cross_compile_run path content true true p =
        (true, update_cross_compile content p,
          [Effect.writeFile path (String.mk (update_cross_compile content p))])) ∧
    (∀ (answer : List Char) (name : String) (entries : List String)
        (alreadyInstalled : Bool) (mkContent : List Char) (mkReadable mkWritable : Bool),
      setup_stm32_project false answer name entries alreadyInstalled
          mkContent mkReadable mkWritable =
        (Effect.mkdir name :: (provisionPre name alreadyInstalled
          ++ (update_cross_compile_run (makefilePath name) mkContent mkReadable mkWritable
                (crossPathChars name)).2.2
          ++ provisionPost name), none)) :=
  ⟨fun _ _ _ _ => rfl, fun _ _ _ => rfl, fun _ _ _ => rfl,
   fun _ _ _ _ _ _ _ => rfl⟩

/-- C9 (counterexample): `update_cross_compile` is not idempotent for every
`new_path`: when the path contains a newline, the appended text spans
several lines and the second run rewrites only the first of them, changing
the file again. -/
theorem update_cross_compile_not_idempotent_on_newline_path :
    update_cross_compile (update_cross_compile [] "p\nq".data) "p\nq".data ≠
      update_cross_compile [] "p\nq".data := by decide

/-- C9 (amended): for every file content and every `new_path` containing no
newline character, applying `update_cross_compile` twice leaves exactly the
content of applying it once — the first run leaves a `CROSS_COMPILE` line
that the second run rewrites to identical text. -/
theorem update_cross_compile_idempotent (content p : List Char) (hp : '\n' ∉ p) :
    update_cross_compile (update_cross_compile content p) p =
      update_cross_compile content p :=
  update_idem content p hp

/-- C9 (witness). -/
theorem update_cross_compile_idempotent_witness :
    update_cross_compile (update_cross_compile "A=1\n".data "p".data) "p".data =
      update_cross_compile "A=1\n".data "p".data :=
  update_cross_compile_idempotent "A=1\n".data "p".data (by decide)

/-- C10: the confirmation check of `setup --delete_current` lowercases the
operator's input and compares it with "y": deletion is triggered exactly by
the inputs "y" and "Y", and any other input (such as "yes") takes the abort
branch. -/
theorem deletion_confirmed_iff_y_or_Y (answer : List Char) :
    deletionConfirmed answer = true ↔ (answer = ['y'] ∨ answer = ['Y']) := by
  unfold deletionConfirmed
  rw [beq_iff_eq]
  constructor
  · exact pyLower_eq_y answer
  · rintro (rfl | rfl) <;> decide
